import Mathlib

/-!
Verification of the substream serialization protocol specification and of the
map consumer functions of `src/Functions/map.cpp`.

The serialization protocol itself (path model, name resolver, substream cache,
stream enumerator, path composer, bulk codec driver) is not part of the sampled
source tree, so its operations are modelled from the specification text; the
map functions are embedded directly from `map.cpp`.
-/

namespace CH

/-! ## Data model: types, values, codecs (closed model of the collaborators) -/

/-- Modelled from the spec: logical data types of the columnar engine, as a
closed set of tagged variants (§9 of the spec: the set of structural kinds is
fixed and finite). -/
inductive DataType where
  | int32
  | uint8
  | uint64
  | string
  | nothing
  | nullable (inner : DataType)
  | array (inner : DataType)
  | map (key : DataType) (value : DataType)
  | tuple2 (n1 : String) (t1 : DataType) (n2 : String) (t2 : DataType)

/-- Modelled from the spec: materialized logical values. -/
inductive Value where
  | intV (n : Int)
  | uintV (n : Nat)
  | strV (s : String)
  | arrV (elems : List Value)
  | nullableV (v : Option Value)
  | tupleV (a b : Value)
  | mapV (pairs : List (Value × Value))

/-- Modelled from the spec: the serialization strategy (codec) attached to a
node; composite codecs mirror the composite types. -/
inductive Codec where
  | simple (t : DataType)
  | nullable (inner : Codec)
  | array (inner : Codec)
  | tuple2 (n1 : String) (esc1 : Bool) (c1 : Codec) (n2 : String) (esc2 : Bool) (c2 : Codec)
  | lowCardinality (inner : Codec)

/-- Modelled from the spec: a wrapper transform ("creator") producing an outer
type/value/codec from an inner one (§3: e.g. "wrap as Nullable", "wrap as
Array"). -/
inductive Creator where
  | wrapNullable
  | wrapArray

def Creator.createType : Creator → DataType → DataType
  | .wrapNullable, t => .nullable t
  | .wrapArray, t => .array t

def Creator.createValue : Creator → Value → Value
  | .wrapNullable, v => .nullableV (some v)
  | .wrapArray, v => .arrV [v]

def Creator.createCodec : Creator → Codec → Codec
  | .wrapNullable, c => .nullable c
  | .wrapArray, c => .array c

/-! ## Path model -/

/-- Modelled from the spec: substream node kinds (§3). -/
inductive SubstreamKind where
  | Regular
  | NullMap
  | ArraySizes
  | ArrayElements
  | DictionaryKeys
  | DictionaryIndexes
  | SparseOffsets
  | TupleElement (name : String) (escapeTupleDelimiter : Bool)

def SubstreamKind.isArrayElements : SubstreamKind → Bool
  | .ArrayElements => true
  | _ => false

def SubstreamKind.isArraySizes : SubstreamKind → Bool
  | .ArraySizes => true
  | _ => false

/-- Modelled from the spec: attached data of a node (§3): the logical type, the
materialized value, the codec, and an optional wrapper transform. -/
structure SubstreamData where
  type : Option DataType
  column : Option Value
  serialization : Option Codec
  creator : Option Creator

/-- Modelled from the spec: one node of a substream path. -/
structure Substream where
  kind : SubstreamKind
  data : SubstreamData

/-- Modelled from the spec: a substream path is an ordered node sequence,
root-first, leaf-last. -/
abbrev SubstreamPath := List Substream

/-! ## Name resolver -/

def hexDigit (n : Nat) : Char :=
  if n < 10 then Char.ofNat (48 + n) else Char.ofNat (55 + n)

/-- Modelled from the spec: escaping a character for safe use as a
storage-location identifier: alphanumeric characters and underscore are kept,
anything else becomes a percent-escape of its code. -/
def escapeChar (c : Char) : String :=
  if c.isAlphanum || c = '_' then String.singleton c
  else "%" ++ String.singleton (hexDigit (c.toNat / 16 % 16))
      ++ String.singleton (hexDigit (c.toNat % 16))

/-- Modelled from the spec: escaping a name for safe use as a storage-location
identifier. -/
def escapeForFileName (s : String) : String :=
  String.join (s.toList.map escapeChar)

/-- Modelled from the spec (§4.2): the literal suffix contributed by one node,
given the array level accumulated before this node and the global
escape-tuple-delimiter mode. -/
def nodeSuffix (level : Nat) (escapeDelim : Bool) : SubstreamKind → String
  | .Regular => ""
  | .NullMap => ".null"
  | .ArraySizes => ".size" ++ toString level
  | .ArrayElements => ""
  | .DictionaryKeys => ".dict"
  | .DictionaryIndexes => ""
  | .SparseOffsets => ".sparse.idx"
  | .TupleElement name esc =>
      (if escapeDelim && esc then escapeForFileName "." else ".") ++ escapeForFileName name

/-- Modelled from the spec (§4.2): the concatenated per-node suffixes of a path,
threading the array level counter (incremented by ArrayElements nodes). -/
def pathSuffix (escapeDelim : Bool) : Nat → SubstreamPath → String
  | _, [] => ""
  | level, node :: rest =>
      nodeSuffix level escapeDelim node.kind
        ++ pathSuffix escapeDelim (if node.kind.isArrayElements then level + 1 else level) rest

/-- Modelled from the spec (§4.2): suffix walk over a path, appended to a base
name. -/
def nameForSubstreamPath (base : String) (path : SubstreamPath) (escapeDelim : Bool) : String :=
  base ++ pathSuffix escapeDelim 0 path

/-- Modelled from the spec (§4.6): the array level of a path is the count of
ArrayElements nodes. -/
def arrayLevel (path : SubstreamPath) : Nat :=
  path.countP (fun node => node.kind.isArrayElements)

/-- Modelled from the spec (§4.2): the table part of a dot-joined nested
composite name; the name itself when it contains no dot. -/
def extractTableName (s : String) : String :=
  ⟨s.toList.takeWhile (fun c => c ≠ '.')⟩

/-- Modelled from the spec (§4.2): a path that is exactly one ArraySizes
node. -/
def isNestedSizesPath : SubstreamPath → Bool
  | [node] => node.kind.isArraySizes
  | _ => false

/-- Modelled from the spec (§4.2): the physical stream name: escaped base
column name (with the nested-table aliasing exception for a lone ArraySizes
path), then the per-node suffix walk with the global escape-tuple-delimiter
mode on. -/
def physicalStreamName (columnName : String) (path : SubstreamPath) : String :=
  let table := extractTableName columnName
  let base :=
    if table != columnName && isNestedSizesPath path then escapeForFileName table
    else escapeForFileName columnName
  nameForSubstreamPath base path true

/-- Modelled from the spec (§4.2): the logical subcolumn name of a path prefix:
the suffix walk with escaping forced off, the leading delimiter stripped. -/
def subcolumnNameForPrefix (path : SubstreamPath) (prefixLen : Nat) : String :=
  let s := nameForSubstreamPath "" (path.take prefixLen) false
  if s.isEmpty then s else s.drop 1

/-- Modelled from the spec (§4.2): the logical subcolumn name of a full
path. -/
def subcolumnName (path : SubstreamPath) : String :=
  subcolumnNameForPrefix path path.length

/-! ## Substream cache -/

/-- Modelled from the spec (§3): the substream cache is a mapping from logical
subcolumn name to a materialized value, owned by the caller. -/
abbrev SubstreamsCache := List (String × Value)

def cacheFind : SubstreamsCache → String → Option Value
  | [], _ => none
  | (k, v) :: rest, key => if k = key then some v else cacheFind rest key

/-- Modelled from the spec (§4.3): `store` is a no-op when the cache is absent
or the path is empty; otherwise it inserts the value under the logical
subcolumn name of the full path. -/
def addToSubstreamsCache (cache : Option SubstreamsCache) (path : SubstreamPath)
    (value : Value) : Option SubstreamsCache :=
  match cache with
  | none => none
  | some c => if path.isEmpty then some c else some ((subcolumnName path, value) :: c)

/-- Modelled from the spec (§4.3): `fetch` returns absent when the cache is
absent or the path is empty; otherwise it looks up the logical subcolumn name
of the full path. -/
def getFromSubstreamsCache (cache : Option SubstreamsCache) (path : SubstreamPath) :
    Option Value :=
  match cache with
  | none => none
  | some c => if path.isEmpty then none else cacheFind c (subcolumnName path)

/-! ## Stream enumerator -/

def DataType.nullableInner : DataType → Option DataType
  | .nullable t => some t
  | _ => none

def DataType.arrayInner : DataType → Option DataType
  | .array t => some t
  | _ => none

def DataType.tupleFstType : DataType → Option DataType
  | .tuple2 _ t _ _ => some t
  | _ => none

def DataType.tupleSndType : DataType → Option DataType
  | .tuple2 _ _ _ t => some t
  | _ => none

def Value.nullMask : Value → Option Value
  | .nullableV v => some (.uintV (cond v.isSome 0 1))
  | _ => none

def Value.nullableNested : Value → Option Value
  | .nullableV (some v) => some v
  | _ => none

def Value.arraySizes : Value → Option Value
  | .arrV elems => some (.uintV elems.length)
  | _ => none

def Value.arrayNested : Value → Option Value
  | .arrV elems => some (.arrV elems)
  | _ => none

def Value.tupleFstVal : Value → Option Value
  | .tupleV a _ => some a
  | _ => none

def Value.tupleSndVal : Value → Option Value
  | .tupleV _ b => some b
  | _ => none

/-- Fires the caller-supplied visitor on a path snapshot, short-circuiting once
a failure has occurred. -/
def runVisit {σ : Type} (visit : σ → SubstreamPath → Except String σ)
    (s : Except String σ) (p : SubstreamPath) : Except String σ :=
  match s with
  | .error e => .error e
  | .ok x => visit x p

/-- Modelled from the spec (§4.4): the recursive walk decomposing a value's
type tree into leaf substreams.  The generic (non-composite) case pushes one
Regular node carrying the input type, the input value, the codec itself and no
transform, invokes the visitor with the full path, and pops the node.
Composite codecs push one structural node (carrying the wrapper transform
where one exists), recurse into each child, and pop before returning; the path
is a mutable stack, modelled by threading it through the call and popping the
path returned by indivisible sub-steps.  Visitor failure is propagated while
the path is still unwound (§9: push/pop scoped via guaranteed cleanup). -/
def enumerate {σ : Type} (visit : σ → SubstreamPath → Except String σ) :
    Codec → Option DataType → Option Value → SubstreamPath → Except String σ →
    SubstreamPath × Except String σ
  | .simple t0, otype, oval, path, s =>
      let p1 := path ++ [⟨.Regular, ⟨otype, oval, some (.simple t0), none⟩⟩]
      (p1.dropLast, runVisit visit s p1)
  | .nullable inner, otype, oval, path, s =>
      let node : Substream :=
        ⟨.NullMap, ⟨some .uint8, oval.bind Value.nullMask, some (.simple .uint8),
          some .wrapNullable⟩⟩
      let p1 := path ++ [node]
      let s1 := runVisit visit s p1
      let r := enumerate visit inner (otype.bind DataType.nullableInner)
        (oval.bind Value.nullableNested) p1 s1
      (r.1.dropLast, r.2)
  | .array inner, otype, oval, path, s =>
      let sizesNode : Substream :=
        ⟨.ArraySizes, ⟨some .uint64, oval.bind Value.arraySizes, some (.simple .uint64), none⟩⟩
      let s1 := runVisit visit s (path ++ [sizesNode])
      let elemsNode : Substream :=
        ⟨.ArrayElements, ⟨otype, oval, some (.array inner), some .wrapArray⟩⟩
      let r := enumerate visit inner (otype.bind DataType.arrayInner)
        (oval.bind Value.arrayNested) (path ++ [elemsNode]) s1
      (r.1.dropLast, r.2)
  | .tuple2 n1 e1 c1 n2 e2 c2, otype, oval, path, s =>
      let node1 : Substream :=
        ⟨.TupleElement n1 e1,
          ⟨otype.bind DataType.tupleFstType, oval.bind Value.tupleFstVal, some c1, none⟩⟩
      let r1 := enumerate visit c1 (otype.bind DataType.tupleFstType)
        (oval.bind Value.tupleFstVal) (path ++ [node1]) s
      let node2 : Substream :=
        ⟨.TupleElement n2 e2,
          ⟨otype.bind DataType.tupleSndType, oval.bind Value.tupleSndVal, some c2, none⟩⟩
      let r2 := enumerate visit c2 (otype.bind DataType.tupleSndType)
        (oval.bind Value.tupleSndVal) (r1.1.dropLast ++ [node2]) r1.2
      (r2.1.dropLast, r2.2)
  | .lowCardinality inner, otype, oval, path, s =>
      let dictNode : Substream :=
        ⟨.DictionaryKeys, ⟨otype, oval, some (.lowCardinality inner), none⟩⟩
      let r := enumerate visit inner otype oval (path ++ [dictNode]) s
      let idxNode : Substream :=
        ⟨.DictionaryIndexes, ⟨some .uint64, none, some (.simple .uint64), none⟩⟩
      let p2 := r.1.dropLast ++ [idxNode]
      (p2.dropLast, runVisit visit r.2 p2)

/-- The sequence of path snapshots at which `enumerate` fires the visitor,
starting from a given path. -/
def enumerateTrace (c : Codec) (otype : Option DataType) (oval : Option Value)
    (path : SubstreamPath) : List SubstreamPath :=
  match enumerate (fun acc p => Except.ok (acc ++ [p])) c otype oval path (Except.ok []) with
  | (_, Except.ok t) => t
  | (_, Except.error _) => []

/-! ## Path composer -/

/-- Applies the wrapper transform of a node to attached data, when the node
carries one. -/
def applyCreatorOpt (node : Substream) (d : SubstreamData) : SubstreamData :=
  match node.data.creator with
  | some c =>
      { type := d.type.map c.createType
        column := d.column.map c.createValue
        serialization := d.serialization.map c.createCodec
        creator := d.creator }
  | none => d

/-- Modelled from the spec (§4.5): `composeAt(path, prefixLen)` starts from the
attached data at node `prefixLen` with its transform cleared, then applies the
wrapper transforms of nodes `prefixLen - 1` down to `0`, in that order,
skipping nodes that carry no transform. -/
def composeAt (path : SubstreamPath) (prefixLen : Nat) : SubstreamData :=
  let start : SubstreamData :=
    match path.get? prefixLen with
    | some node => { node.data with creator := none }
    | none => ⟨none, none, none, none⟩
  (path.take prefixLen).reverse.foldl (fun d node => applyCreatorOpt node d) start

/-! ## Bulk codec driver (single-stream entry points) -/

/-- Modelled from the spec (§4.6, §7): number of leaf streams a codec
decomposes a value into. -/
def Codec.streamCount : Codec → Nat
  | .simple _ => 1
  | .nullable inner => 1 + inner.streamCount
  | .array inner => 1 + inner.streamCount
  | .tuple2 _ _ c1 _ _ c2 => c1.streamCount + c2.streamCount
  | .lowCardinality inner => inner.streamCount + 1

/-- Error raised by the driver when the single-stream entry point is used for a
codec that mandates multi-stream decomposition; it identifies the offending
value. -/
inductive SerializeError where
  | multipleStreamsRequired (offending : Value)

/-- Modelled from the spec (§4.6, §7): the default (single-stream) serialize
entry point writes the value through one physical buffer; any composite codec
requires multiple streams and fails immediately, identifying the offending
value. -/
def serializeSingleStream : Codec → Value → Except SerializeError (List Value)
  | .simple _, v => .ok [v]
  | _, v => .error (.multipleStreamsRequired v)

/-- Modelled from the spec (§4.6, §7): the default (single-stream) deserialize
entry point reads a value from one physical buffer into the column being
filled; any composite codec requires multiple streams and fails immediately,
identifying the column being filled. -/
def deserializeSingleStream : Codec → Value → List Value → Except SerializeError Value
  | .simple _, col, stream => .ok (stream.headD col)
  | _, col, _ => .error (.multipleStreamsRequired col)

/-! ## Columns and the map functions of `src/Functions/map.cpp` -/

/-- Columns as materialized values: a map column is
`ColumnMap(ColumnArray(ColumnTuple(keys, values), offsets))`, an array column
is `ColumnArray(data, offsets)`, a constant column repeats one value. -/
inductive Column where
  | map (keysData : List Value) (valuesData : List Value) (offsets : List Nat)
  | arr (data : List Value) (offsets : List Nat)
  | vec (data : List Value)
  | const (rows : Nat) (value : Value)

/-- Splits a list into the elements at even positions and the elements at odd
positions (the `for (i += 2) keys←args[i]; values←args[i+1]` loop of
`map.cpp`). -/
def splitKeysValues {α : Type} : List α → List α × List α
  | x :: y :: rest =>
      let p := splitKeysValues rest
      (x :: p.1, y :: p.2)
  | _ => ([], [])

/-- Error codes thrown by the map functions (`map.cpp`). -/
inductive MapError where
  | numberOfArgumentsDoesntMatch (given : Nat)
  | illegalTypeOfArgument

namespace FunctionMap

/-- `FunctionMap::getReturnTypeImpl` (map.cpp:70-87): throws
NUMBER_OF_ARGUMENTS_DOESNT_MATCH for an odd number of arguments, otherwise
returns `Map(leastSupertype(even-position types), leastSupertype(odd-position
types))`.  `getLeastSupertype` lives outside the sampled sources and is taken
as an abstract total parameter `lub`. -/
def getReturnTypeImpl (lub : List DataType → DataType) (args : List DataType) :
    Except MapError DataType :=
  if args.length % 2 ≠ 0 then .error (.numberOfArgumentsDoesntMatch args.length)
  else
    let p := splitKeysValues args
    .ok (.map (lub p.1) (lub p.2))

/-- `castColumn` (external to map.cpp) is taken as an abstract per-value cast
parameter; casting a whole column maps it over the entries. -/
def castColumnTo (cast : Value → DataType → Value) (t : DataType) (col : List Value) :
    List Value :=
  col.map (fun v => cast v t)

/-- The `i % 2 == 0 ? key_type : value_type` preprocessing loop of
`FunctionMap::executeImpl` (map.cpp:103-113): even-position argument columns
are cast to the key type, odd-position ones to the value type. -/
def castArgs (cast : Value → DataType → Value) (keyType valueType : DataType) :
    List (List Value) → List (List Value)
  | [] => []
  | c :: rest => castColumnTo cast keyType c :: castArgs cast valueType keyType rest

/-- `FunctionMap::executeImpl` (map.cpp:89-144): with no arguments, a constant
column of default (empty) map values; otherwise cast each argument column,
then fill keys/values data row by row (row `i` appends entry `i` of every
even/odd cast column) with offsets growing by `num_elements / 2` per row. -/
def executeImpl (cast : Value → DataType → Value) (keyType valueType : DataType)
    (args : List (List Value)) (rows : Nat) : Column :=
  if args.length = 0 then Column.const rows (Value.mapV [])
  else
    let cols := castArgs cast keyType valueType args
    let p := splitKeysValues cols
    let keysData := ((List.range rows).map
      (fun i => p.1.map (fun col => col.getD i (Value.mapV [])))).flatten
    let valuesData := ((List.range rows).map
      (fun i => p.2.map (fun col => col.getD i (Value.mapV [])))).flatten
    let offsets := (List.range rows).map (fun i => (i + 1) * (args.length / 2))
    Column.map keysData valuesData offsets

end FunctionMap

/-- Reading row `i` of a map column: the key/value pairs delimited by offsets
`i - 1` and `i`, exactly as `ColumnMap` rows are addressed. -/
def Column.mapRow : Column → Nat → Option (List (Value × Value))
  | .map k v o, i =>
      match o.get? i with
      | none => none
      | some stop =>
          let start := if i = 0 then 0 else o.getD (i - 1) 0
          some (List.zip ((k.drop start).take (stop - start))
                         ((v.drop start).take (stop - start)))
  | _, _ => none

/-- The offsets column of a map or array column. -/
def Column.offsetsOf : Column → Option (List Nat)
  | .map _ _ o => some o
  | .arr _ o => some o
  | _ => none

namespace FunctionMapKeys

/-- `FunctionMapKeys::executeImpl` (map.cpp:218-228): requires a map column
(returns null otherwise) and rewraps its nested keys data with the map's
offsets, performing no decomposition of its own. -/
def executeImpl : Column → Option Column
  | .map k _ o => some (.arr k o)
  | _ => none

end FunctionMapKeys

namespace FunctionMapValues

/-- `FunctionMapValues::executeImpl` (map.cpp:267-277): requires a map column
(returns null otherwise) and rewraps its nested values data with the map's
offsets, performing no decomposition of its own. -/
def executeImpl : Column → Option Column
  | .map _ v o => some (.arr v o)
  | _ => none

end FunctionMapValues

/-- The decomposition path of `Nullable(Array(Int32))` over an `Int32` leaf: a
NullMap node whose transform captures "wrap Nullable", an ArrayElements node
whose transform captures "wrap Array" and whose attached data is the
representation at its own depth (`Array(Int32)`), and the Regular leaf node
carrying plain `Int32`. -/
def nullableArrayInt32Path : SubstreamPath :=
  [ ⟨.NullMap, ⟨some .uint8, some (.uintV 0), some (.simple .uint8), some .wrapNullable⟩⟩,
    ⟨.ArrayElements,
      ⟨some (.array .int32), some (.arrV [.intV 5]), some (.array (.simple .int32)),
        some .wrapArray⟩⟩,
    ⟨.Regular, ⟨some .int32, some (.arrV [.intV 5]), some (.simple .int32), none⟩⟩ ]

/-! ## Theorems -/

theorem pathSuffix_append (esc : Bool) :
    ∀ (xs ys : SubstreamPath) (lvl : Nat),
      pathSuffix esc lvl (xs ++ ys)
        = pathSuffix esc lvl xs ++ pathSuffix esc (lvl + arrayLevel xs) ys
  | [], ys, lvl => by simp [pathSuffix, arrayLevel]
  | x :: xs, ys, lvl => by
      have hlvl : (if x.kind.isArrayElements then lvl + 1 else lvl) + arrayLevel xs
          = lvl + arrayLevel (x :: xs) := by
        by_cases h : x.kind.isArrayElements
        · simp [arrayLevel, h, List.countP_cons]
          omega
        · simp [arrayLevel, h, List.countP_cons]
      simp only [List.cons_append, pathSuffix, List.append_eq, pathSuffix_append esc xs ys,
        hlvl, String.append_assoc]

/-- Claim C1: for the path consisting of exactly one TupleElement node with
element name "b" and its per-node escape flag set, under the global
escape-tuple-delimiter mode, the physical stream name for base column "a" is
"a" followed by the escaped-dot sentinel followed by the escaped element name,
i.e. "a%2Eb", while the logical subcolumn name of the same path is "b". -/
theorem spec_C1 : ∀ d : SubstreamData,
    physicalStreamName "a" [⟨.TupleElement "b" true, d⟩]
        = "a" ++ escapeForFileName "." ++ escapeForFileName "b"
  ∧ physicalStreamName "a" [⟨.TupleElement "b" true, d⟩] = "a%2Eb"
  ∧ subcolumnName [⟨.TupleElement "b" true, d⟩] = "b" :=
  fun _ => ⟨rfl, rfl, rfl⟩

/-- Claim C2: for a path `[ArrayElements, ArrayElements, ArraySizes]` the array
level at the ArraySizes node is 2 and the produced suffix is ".size2"; in
general an ArraySizes node appends ".size" followed by the count of
ArrayElements nodes strictly before it, and an ArrayElements node appends no
literal suffix of its own. -/
theorem spec_C2 :
    (∀ (d1 d2 d3 : SubstreamData) (base : String) (esc : Bool),
        arrayLevel [⟨.ArrayElements, d1⟩, ⟨.ArrayElements, d2⟩] = 2
      ∧ nameForSubstreamPath base
          [⟨.ArrayElements, d1⟩, ⟨.ArrayElements, d2⟩, ⟨.ArraySizes, d3⟩] esc
          = base ++ ".size2")
  ∧ (∀ (base : String) (esc : Bool) (p1 : SubstreamPath) (d : SubstreamData),
        nameForSubstreamPath base (p1 ++ [⟨.ArraySizes, d⟩]) esc
          = nameForSubstreamPath base p1 esc ++ (".size" ++ toString (arrayLevel p1)))
  ∧ (∀ (base : String) (esc : Bool) (p1 : SubstreamPath) (d : SubstreamData),
        nameForSubstreamPath base (p1 ++ [⟨.ArrayElements, d⟩]) esc
          = nameForSubstreamPath base p1 esc) := by
  refine ⟨fun d1 d2 d3 base esc => ⟨rfl, by with_unfolding_all rfl⟩, ?_, ?_⟩
  · intro base esc p1 d
    simp only [nameForSubstreamPath, pathSuffix_append, pathSuffix, nodeSuffix,
      Nat.zero_add, String.append_assoc, String.append_empty, String.empty_append]
  · intro base esc p1 d
    simp only [nameForSubstreamPath, pathSuffix_append, pathSuffix, nodeSuffix,
      Nat.zero_add, String.append_assoc, String.append_empty, String.empty_append]

/-- Claim C5: storing is a no-op for an absent cache or empty path; fetching
from an absent cache or with an empty path yields absent; after a store, a
fetch under any path with the same logical subcolumn name returns the stored
value, and a fetch under a path with a different logical subcolumn name
returns absent. -/
theorem spec_C5 :
    (∀ (path : SubstreamPath) (value : Value),
        addToSubstreamsCache none path value = none)
  ∧ (∀ (cache : Option SubstreamsCache) (value : Value),
        addToSubstreamsCache cache [] value = cache)
  ∧ (∀ path : SubstreamPath, getFromSubstreamsCache none path = none)
  ∧ (∀ cache : Option SubstreamsCache, getFromSubstreamsCache cache [] = none)
  ∧ (∀ (c : SubstreamsCache) (path path' : SubstreamPath) (value : Value),
        path ≠ [] → path' ≠ [] → subcolumnName path' = subcolumnName path →
        getFromSubstreamsCache (addToSubstreamsCache (some c) path value) path'
          = some value)
  ∧ (∀ (path path' : SubstreamPath) (value : Value),
        subcolumnName path' ≠ subcolumnName path →
        getFromSubstreamsCache (addToSubstreamsCache (some []) path value) path'
          = none) := by
  refine ⟨fun _ _ => rfl, fun cache _ => by cases cache <;> rfl, fun _ => rfl,
    fun cache => by cases cache <;> rfl, ?_, ?_⟩
  · intro c path path' value hp hp' hname
    cases path with
    | nil => exact absurd rfl hp
    | cons a p =>
      cases path' with
      | nil => exact absurd rfl hp'
      | cons b p' =>
        simp [addToSubstreamsCache, getFromSubstreamsCache, cacheFind, hname]
  · intro path path' value hname
    cases path with
    | nil =>
      cases path' with
      | nil => rfl
      | cons b p' => simp [addToSubstreamsCache, getFromSubstreamsCache, cacheFind]
    | cons a p =>
      cases path' with
      | nil => rfl
      | cons b p' =>
        simp [addToSubstreamsCache, getFromSubstreamsCache, cacheFind, Ne.symm hname]

theorem spec_C5_witness :
    getFromSubstreamsCache
      (addToSubstreamsCache (some []) [⟨.NullMap, ⟨none, none, none, none⟩⟩] (.uintV 7))
      [⟨.NullMap, ⟨none, none, none, none⟩⟩] = some (.uintV 7)
  ∧ getFromSubstreamsCache
      (addToSubstreamsCache (some []) [⟨.NullMap, ⟨none, none, none, none⟩⟩] (.uintV 7))
      [⟨.DictionaryKeys, ⟨none, none, none, none⟩⟩] = none :=
  ⟨spec_C5.2.2.2.2.1 [] _ _ _ (by simp) (by simp) rfl,
   spec_C5.2.2.2.2.2 _ _ _ (by decide)⟩

/-- Claim C4: `composeAt` starts from the attached data at node `prefixLen`
with its transform cleared, then applies the wrapper transforms of the nodes
before it from innermost to outermost, skipping nodes without a transform
(stated as the zero and successor characterizations); on the decomposition
path of `Nullable(Array(Int32))`, `composeAt` at prefix length 1 rebuilds the
full `Nullable(Array(Int32))` type, value and codec, while the innermost leaf
node's data, accessed with prefix length 0 and no rewrapping, is plain
`Int32`. -/
theorem spec_C4 :
    (∀ (node : Substream) (rest : SubstreamPath),
        composeAt (node :: rest) 0 = { node.data with creator := none })
  ∧ (∀ (node : Substream) (rest : SubstreamPath) (n : Nat),
        composeAt (node :: rest) (n + 1) = applyCreatorOpt node (composeAt rest n))
  ∧ composeAt nullableArrayInt32Path 1
      = ⟨some (.nullable (.array .int32)),
         some (.nullableV (some (.arrV [.intV 5]))),
         some (.nullable (.array (.simple .int32))), none⟩
  ∧ (composeAt (nullableArrayInt32Path.drop 2) 0).type = some .int32 := by
  refine ⟨fun node rest => rfl, ?_, rfl, rfl⟩
  intro node rest n
  simp [composeAt, List.foldl_append]

/-- Claim C3: every `enumerate` call — the generic one and every
composite-codec override, whether the visitor succeeds or fails — returns the
caller's path with identical length and contents. -/
theorem spec_C3 {σ : Type} (visit : σ → SubstreamPath → Except String σ)
    (c : Codec) : ∀ (otype : Option DataType) (oval : Option Value)
    (path : SubstreamPath) (s : Except String σ),
    (enumerate visit c otype oval path s).1 = path := by
  induction c with
  | simple t0 =>
      intro otype oval path s
      simp [enumerate]
  | nullable inner ih =>
      intro otype oval path s
      simp [enumerate, ih]
  | array inner ih =>
      intro otype oval path s
      simp [enumerate, ih]
  | tuple2 n1 e1 c1 n2 e2 c2 ih1 ih2 =>
      intro otype oval path s
      simp [enumerate, ih1, ih2]
  | lowCardinality inner ih =>
      intro otype oval path s
      simp [enumerate, ih]

/-- Claim C7: for a non-composite codec, `enumerate` fires the visitor exactly
once, on the input path extended by a single Regular node whose attached data
carries exactly the input type and value, the codec itself as serialization
and no wrapper transform; started from the empty path, the visit trace is one
path of length 1. -/
theorem spec_C7 : ∀ (t0 : DataType) (otype : Option DataType) (oval : Option Value),
    (∀ {σ : Type} (visit : σ → SubstreamPath → Except String σ)
        (path : SubstreamPath) (s : Except String σ),
      enumerate visit (.simple t0) otype oval path s
        = (path,
           runVisit visit s (path ++ [⟨.Regular, ⟨otype, oval, some (.simple t0), none⟩⟩])))
  ∧ enumerateTrace (.simple t0) otype oval []
      = [[⟨.Regular, ⟨otype, oval, some (.simple t0), none⟩⟩]] := by
  intro t0 otype oval
  refine ⟨fun visit path s => ?_, rfl⟩
  simp [enumerate]

theorem enumerate_count (c : Codec) : ∀ (otype : Option DataType) (oval : Option Value)
    (path : SubstreamPath) (n : Nat),
    enumerate (fun (k : Nat) _ => Except.ok (k + 1)) c otype oval path (Except.ok n)
      = (path, Except.ok (n + c.streamCount)) := by
  induction c with
  | simple t0 =>
      intro otype oval path n
      simp [enumerate, runVisit, Codec.streamCount]
  | nullable inner ih =>
      intro otype oval path n
      simp [enumerate, runVisit, ih, Codec.streamCount, Nat.add_assoc]
  | array inner ih =>
      intro otype oval path n
      simp [enumerate, runVisit, ih, Codec.streamCount, Nat.add_assoc]
  | tuple2 n1 e1 c1 n2 e2 c2 ih1 ih2 =>
      intro otype oval path n
      simp [enumerate, runVisit, ih1, ih2, Codec.streamCount, Nat.add_assoc]
  | lowCardinality inner ih =>
      intro otype oval path n
      simp [enumerate, runVisit, ih, Codec.streamCount, Nat.add_assoc]

/-- Claim C6: for every codec that decomposes a value into more than one leaf
stream (equivalently, whose enumeration fires the visitor more than once), the
single-stream serialize and deserialize entry points of the bulk codec driver
fail immediately with an error identifying the offending value (respectively
the column being filled), writing and reading nothing. -/
theorem spec_C6 : ∀ (c : Codec) (v col : Value) (stream : List Value),
    1 < c.streamCount →
    serializeSingleStream c v = .error (.multipleStreamsRequired v)
  ∧ deserializeSingleStream c col stream = .error (.multipleStreamsRequired col)
  ∧ ∀ (otype : Option DataType) (oval : Option Value) (path : SubstreamPath) (n : Nat),
      enumerate (fun (k : Nat) _ => Except.ok (k + 1)) c otype oval path (Except.ok n)
        = (path, Except.ok (n + c.streamCount)) := by
  intro c v col stream hmulti
  refine ⟨?_, ?_, fun otype oval path n => enumerate_count c otype oval path n⟩
  · cases c with
    | simple t0 => simp [Codec.streamCount] at hmulti
    | nullable inner => rfl
    | array inner => rfl
    | tuple2 n1 e1 c1 n2 e2 c2 => rfl
    | lowCardinality inner => rfl
  · cases c with
    | simple t0 => simp [Codec.streamCount] at hmulti
    | nullable inner => rfl
    | array inner => rfl
    | tuple2 n1 e1 c1 n2 e2 c2 => rfl
    | lowCardinality inner => rfl

theorem spec_C6_witness :
    serializeSingleStream (.nullable (.simple .int32)) (.nullableV none)
      = .error (.multipleStreamsRequired (.nullableV none))
  ∧ deserializeSingleStream (.nullable (.simple .int32)) (.uintV 0) []
      = .error (.multipleStreamsRequired (.uintV 0)) :=
  ⟨(spec_C6 (.nullable (.simple .int32)) (.nullableV none) (.uintV 0) [] (by decide)).1,
   (spec_C6 (.nullable (.simple .int32)) (.nullableV none) (.uintV 0) [] (by decide)).2.1⟩

/-- Claim C8: the map consumer functions mapKeys and mapValues operate purely
on the reconstructed map column: they rewrap its existing "keys" (respectively
"values") child together with the map's offsets, decompose nothing themselves,
and yield null on any non-map column; "keys" and "values" are exactly the
logical subcolumn names of the corresponding tuple-element paths. -/
theorem spec_C8 :
    (∀ (k v : List Value) (o : List Nat),
        FunctionMapKeys.executeImpl (.map k v o) = some (.arr k o)
      ∧ FunctionMapValues.executeImpl (.map k v o) = some (.arr v o))
  ∧ (∀ (dat : List Value) (o : List Nat),
        FunctionMapKeys.executeImpl (.arr dat o) = none
      ∧ FunctionMapValues.executeImpl (.arr dat o) = none)
  ∧ (∀ dat : List Value,
        FunctionMapKeys.executeImpl (.vec dat) = none
      ∧ FunctionMapValues.executeImpl (.vec dat) = none)
  ∧ (∀ (r : Nat) (v : Value),
        FunctionMapKeys.executeImpl (.const r v) = none
      ∧ FunctionMapValues.executeImpl (.const r v) = none)
  ∧ (∀ d : SubstreamData, subcolumnName [⟨.TupleElement "keys" false, d⟩] = "keys")
  ∧ (∀ d : SubstreamData, subcolumnName [⟨.TupleElement "values" false, d⟩] = "values") :=
  ⟨fun _ _ _ => ⟨rfl, rfl⟩, fun _ _ => ⟨rfl, rfl⟩, fun _ => ⟨rfl, rfl⟩,
   fun _ _ => ⟨rfl, rfl⟩, fun _ => rfl, fun _ => rfl⟩

theorem splitKeysValues_length {α : Type} : ∀ l : List α,
    (splitKeysValues l).1.length = l.length / 2
  ∧ (splitKeysValues l).2.length = l.length / 2
  | [] => by simp [splitKeysValues]
  | [_] => by simp [splitKeysValues]
  | x :: y :: rest => by
      have ih := splitKeysValues_length rest
      refine ⟨?_, ?_⟩ <;> simp [splitKeysValues, ih.1, ih.2] <;> omega

theorem splitKeysValues_get {α : Type} : ∀ l : List α, l.length % 2 = 0 → ∀ j : Nat,
    (splitKeysValues l).1.get? j = l.get? (2 * j)
  ∧ (splitKeysValues l).2.get? j = l.get? (2 * j + 1)
  | [], _, j => by simp [splitKeysValues]
  | [_], h, j => by simp at h
  | x :: y :: rest, h, j => by
      have hrest : rest.length % 2 = 0 := by
        simp only [List.length_cons] at h
        omega
      cases j with
      | zero => simp [splitKeysValues]
      | succ j' =>
          have ih := splitKeysValues_get rest hrest j'
          have h2 : 2 * (j' + 1) = 2 * j' + 1 + 1 := by omega
          rw [h2]
          simp only [splitKeysValues, List.get?_cons_succ]
          exact ih

/-- Claim C9: the return-type computation of the map construction function
raises NUMBER_OF_ARGUMENTS_DOESNT_MATCH exactly when the argument count is
odd; for an even-length argument list it returns the map type of the least
supertype of the even-position types and the least supertype of the
odd-position types. -/
theorem spec_C9 : ∀ (lub : List DataType → DataType) (args : List DataType),
    ((FunctionMap.getReturnTypeImpl lub args
        = .error (.numberOfArgumentsDoesntMatch args.length)) ↔ args.length % 2 ≠ 0)
  ∧ (args.length % 2 = 0 →
        FunctionMap.getReturnTypeImpl lub args
          = .ok (.map (lub (splitKeysValues args).1) (lub (splitKeysValues args).2)))
  ∧ (args.length % 2 = 0 → ∀ j : Nat,
        (splitKeysValues args).1.get? j = args.get? (2 * j)
      ∧ (splitKeysValues args).2.get? j = args.get? (2 * j + 1))
  ∧ (splitKeysValues args).1.length = args.length / 2
  ∧ (splitKeysValues args).2.length = args.length / 2 := by
  intro lub args
  refine ⟨?_, ?_, fun h j => splitKeysValues_get args h j,
    (splitKeysValues_length args).1, (splitKeysValues_length args).2⟩
  · by_cases h : args.length % 2 = 0 <;> simp [FunctionMap.getReturnTypeImpl, h]
  · intro h
    simp [FunctionMap.getReturnTypeImpl, h]

theorem spec_C9_witness :
    FunctionMap.getReturnTypeImpl (fun _ => .int32) [.string, .uint8]
      = .ok (.map .int32 .int32)
  ∧ FunctionMap.getReturnTypeImpl (fun _ => .int32) [.string]
      = .error (.numberOfArgumentsDoesntMatch 1) :=
  ⟨(spec_C9 (fun _ => .int32) [.string, .uint8]).2.1 rfl,
   (spec_C9 (fun _ => .int32) [.string]).1.mpr (by decide)⟩

theorem castArgs_length (cast : Value → DataType → Value) :
    ∀ (kT vT : DataType) (args : List (List Value)),
    (FunctionMap.castArgs cast kT vT args).length = args.length
  | _, _, [] => rfl
  | kT, vT, _ :: rest => by
      simp [FunctionMap.castArgs, castArgs_length cast vT kT rest]

theorem castArgs_get (cast : Value → DataType → Value) :
    ∀ (kT vT : DataType) (args : List (List Value)) (m : Nat),
    (FunctionMap.castArgs cast kT vT args).get? m
      = (args.get? m).map (List.map (fun v => cast v (if m % 2 = 0 then kT else vT)))
  | _, _, [], m => by simp [FunctionMap.castArgs]
  | kT, vT, c :: rest, 0 => by simp [FunctionMap.castArgs, FunctionMap.castColumnTo]
  | kT, vT, c :: rest, (m + 1) => by
      have ih := castArgs_get cast vT kT rest m
      have hcons : FunctionMap.castArgs cast kT vT (c :: rest)
          = FunctionMap.castColumnTo cast kT c :: FunctionMap.castArgs cast vT kT rest := rfl
      rw [hcons, List.get?_cons_succ, List.get?_cons_succ, ih]
      by_cases hm : m % 2 = 0
      · have hm1 : ¬ (m + 1) % 2 = 0 := by omega
        rw [if_pos hm, if_neg hm1]
      · have hm1 : (m + 1) % 2 = 0 := by omega
        rw [if_neg hm, if_pos hm1]

theorem flatten_slice {α : Type} (c : Nat) : ∀ (L : List (List α)),
    (∀ x ∈ L, x.length = c) → ∀ i : Nat, i < L.length →
    (L.flatten.drop (i * c)).take c = L.getD i []
  | [], _, i, hi => by simp at hi
  | x :: L', hlen, 0, _ => by
      have hx : x.length = c := hlen x (List.mem_cons_self x L')
      simp only [List.flatten_cons, Nat.zero_mul, List.drop_zero, List.getD_cons_zero]
      rw [← hx, List.take_left]
  | x :: L', hlen, i + 1, hi => by
      have hx : x.length = c := hlen x (List.mem_cons_self x L')
      have hL' : ∀ y ∈ L', y.length = c := fun y hy => hlen y (List.mem_cons_of_mem x hy)
      have hi' : i < L'.length := by
        simp only [List.length_cons] at hi
        omega
      have harith : (i + 1) * c = x.length + i * c := by rw [hx]; ring
      rw [List.flatten_cons, harith, ← List.drop_drop, List.drop_left, List.getD_cons_succ]
      exact flatten_slice c L' hL' i hi'

theorem getD_map_of_lt {α β : Type} (f : α → β) (l : List α) (i : Nat) (d : β) (d' : α)
    (h : i < l.length) : (l.map f).getD i d = f (l.getD i d') := by
  rw [List.getD_eq_get?, List.getD_eq_get?, List.get?_map, List.get?_eq_get h]
  rfl

theorem range_map_getD {β : Type} (rows i : Nat) (f : Nat → β) (d : β) (hi : i < rows) :
    ((List.range rows).map f).getD i d = f i := by
  rw [List.getD_eq_get?, List.get?_map, List.get?_range hi]
  rfl

theorem split_castArgs_row (cast : Value → DataType → Value) (kT vT : DataType)
    (args : List (List Value)) (rows i : Nat)
    (hev : args.length % 2 = 0) (hlen : ∀ col ∈ args, col.length = rows) (hi : i < rows) :
    (splitKeysValues (FunctionMap.castArgs cast kT vT args)).1.map
        (fun col => col.getD i (Value.mapV []))
      = (List.range (args.length / 2)).map (fun j =>
          cast ((args.getD (2 * j) []).getD i (Value.mapV [])) kT)
  ∧ (splitKeysValues (FunctionMap.castArgs cast kT vT args)).2.map
        (fun col => col.getD i (Value.mapV []))
      = (List.range (args.length / 2)).map (fun j =>
          cast ((args.getD (2 * j + 1) []).getD i (Value.mapV [])) vT) := by
  have hcl : (FunctionMap.castArgs cast kT vT args).length = args.length :=
    castArgs_length cast kT vT args
  have hev' : (FunctionMap.castArgs cast kT vT args).length % 2 = 0 := by
    rw [hcl]; exact hev
  have hslen := splitKeysValues_length (FunctionMap.castArgs cast kT vT args)
  constructor <;> apply List.ext <;> intro j <;>
    rw [List.get?_map, List.get?_map] <;> by_cases hj : j < args.length / 2
  · have hsk := (splitKeysValues_get (FunctionMap.castArgs cast kT vT args) hev' j).1
    have h2j : 2 * j < args.length := by omega
    have hcol := List.get?_eq_get h2j
    have hclen : (args.get ⟨2 * j, h2j⟩).length = rows := hlen _ (List.get_mem args (2 * j) h2j)
    have hicol : i < (args.get ⟨2 * j, h2j⟩).length := by omega
    have hif : (if 2 * j % 2 = 0 then kT else vT) = kT := if_pos (Nat.mul_mod_right 2 j)
    have hargsgetD : args.getD (2 * j) [] = args.get ⟨2 * j, h2j⟩ := by
      rw [List.getD_eq_get?, hcol]
      rfl
    rw [hsk, castArgs_get, hif, hcol, List.get?_range hj]
    simp only [Option.map_some']
    rw [hargsgetD, getD_map_of_lt (fun v => cast v kT) _ i (Value.mapV []) (Value.mapV []) hicol]
  · have h1 : (splitKeysValues (FunctionMap.castArgs cast kT vT args)).1.get? j = none := by
      rw [List.get?_eq_none]
      rw [hslen.1, hcl]
      omega
    have h2 : (List.range (args.length / 2)).get? j = none := by
      rw [List.get?_eq_none, List.length_range]
      omega
    rw [h1, h2]
    rfl
  · have hsk := (splitKeysValues_get (FunctionMap.castArgs cast kT vT args) hev' j).2
    have h2j : 2 * j + 1 < args.length := by omega
    have hcol := List.get?_eq_get h2j
    have hclen : (args.get ⟨2 * j + 1, h2j⟩).length = rows :=
      hlen _ (List.get_mem args (2 * j + 1) h2j)
    have hicol : i < (args.get ⟨2 * j + 1, h2j⟩).length := by omega
    have hif : (if (2 * j + 1) % 2 = 0 then kT else vT) = vT := if_neg (by omega)
    have hargsgetD : args.getD (2 * j + 1) [] = args.get ⟨2 * j + 1, h2j⟩ := by
      rw [List.getD_eq_get?, hcol]
      rfl
    rw [hsk, castArgs_get, hif, hcol, List.get?_range hj]
    simp only [Option.map_some']
    rw [hargsgetD, getD_map_of_lt (fun v => cast v vT) _ i (Value.mapV []) (Value.mapV []) hicol]
  · have h1 : (splitKeysValues (FunctionMap.castArgs cast kT vT args)).2.get? j = none := by
      rw [List.get?_eq_none]
      rw [hslen.2, hcl]
      omega
    have h2 : (List.range (args.length / 2)).get? j = none := by
      rw [List.get?_eq_none, List.length_range]
      omega
    rw [h1, h2]
    rfl

/-- Claim C10: with an even, positive number of argument columns of equal row
count, the map construction function returns a map column whose row `i` holds
exactly `n / 2` key-value pairs, the `j`-th being argument `2j` and argument
`2j + 1` at row `i` cast to the key and value types, in argument order, with
every offset growing by `n / 2` per row; with no arguments it returns a
constant column of default (empty) map values. -/
theorem spec_C10 :
    (∀ (cast : Value → DataType → Value) (kT vT : DataType) (rows : Nat),
        FunctionMap.executeImpl cast kT vT [] rows = .const rows (.mapV []))
  ∧ (∀ (cast : Value → DataType → Value) (kT vT : DataType)
        (args : List (List Value)) (rows : Nat),
      args ≠ [] → args.length % 2 = 0 → (∀ col ∈ args, col.length = rows) →
      Column.offsetsOf (FunctionMap.executeImpl cast kT vT args rows)
          = some ((List.range rows).map (fun i => (i + 1) * (args.length / 2)))
    ∧ ∀ i : Nat, i < rows →
        Column.mapRow (FunctionMap.executeImpl cast kT vT args rows) i
          = some ((List.range (args.length / 2)).map (fun j =>
              (cast ((args.getD (2 * j) []).getD i (Value.mapV [])) kT,
               cast ((args.getD (2 * j + 1) []).getD i (Value.mapV [])) vT)))) := by
  refine ⟨fun cast kT vT rows => rfl, ?_⟩
  intro cast kT vT args rows hne hev hlen
  have hn0 : ¬ args.length = 0 := by
    simpa [List.length_eq_zero] using hne
  have hcl : (FunctionMap.castArgs cast kT vT args).length = args.length :=
    castArgs_length cast kT vT args
  have hslen := splitKeysValues_length (FunctionMap.castArgs cast kT vT args)
  constructor
  · simp [FunctionMap.executeImpl, hn0, Column.offsetsOf]
  · intro i hi
    have hoget : ((List.range rows).map
        (fun r => (r + 1) * (args.length / 2))).get? i
          = some ((i + 1) * (args.length / 2)) := by
      rw [List.get?_map, List.get?_range hi]
      rfl
    have hstart : (if i = 0 then 0
        else ((List.range rows).map (fun r => (r + 1) * (args.length / 2))).getD (i - 1) 0)
          = i * (args.length / 2) := by
      cases i with
      | zero => simp
      | succ i' =>
          have hi' : i' < rows := by omega
          rw [if_neg (Nat.succ_ne_zero i'), Nat.add_sub_cancel,
            range_map_getD rows i' (fun r => (r + 1) * (args.length / 2)) 0 hi']
    have hdiff : (i + 1) * (args.length / 2) - i * (args.length / 2) = args.length / 2 := by
      rw [Nat.succ_mul]
      omega
    have hrowk := (split_castArgs_row cast kT vT args rows i hev hlen hi).1
    have hrowv := (split_castArgs_row cast kT vT args rows i hev hlen hi).2
    have hkeys := flatten_slice (args.length / 2)
      ((List.range rows).map (fun r =>
        (splitKeysValues (FunctionMap.castArgs cast kT vT args)).1.map
          (fun col => col.getD r (Value.mapV []))))
      (by
        intro x hx
        obtain ⟨r, _, rfl⟩ := List.mem_map.mp hx
        simp [hslen.1, hcl])
      i (by simpa using hi)
    have hvals := flatten_slice (args.length / 2)
      ((List.range rows).map (fun r =>
        (splitKeysValues (FunctionMap.castArgs cast kT vT args)).2.map
          (fun col => col.getD r (Value.mapV []))))
      (by
        intro x hx
        obtain ⟨r, _, rfl⟩ := List.mem_map.mp hx
        simp [hslen.2, hcl])
      i (by simpa using hi)
    rw [range_map_getD rows i _ [] hi] at hkeys
    rw [range_map_getD rows i _ [] hi] at hvals
    simp only [FunctionMap.executeImpl, hn0, if_false, Column.mapRow, hoget, hstart, hdiff]
    rw [hkeys, hvals, hrowk, hrowv, List.zip_map']

theorem spec_C10_witness :
    Column.offsetsOf (FunctionMap.executeImpl (fun v _ => v) .int32 .string
        [[.intV 1], [.intV 2]] 1) = some [1]
  ∧ Column.mapRow (FunctionMap.executeImpl (fun v _ => v) .int32 .string
        [[.intV 1], [.intV 2]] 1) 0 = some [(.intV 1, .intV 2)] :=
  ⟨(spec_C10.2 (fun v _ => v) .int32 .string [[.intV 1], [.intV 2]] 1
      (by simp) rfl (by simp)).1,
   (spec_C10.2 (fun v _ => v) .int32 .string [[.intV 1], [.intV 2]] 1
      (by simp) rfl (by simp)).2 0 (by decide)⟩

end CH
